import Mathlib

set_option maxRecDepth 10000

/-!
Shallow embedding of the Xiangqi rules engine and AI opponent
(src/utils/boardUtils.ts, src/utils/moveValidation.ts, src/utils/aiEngine.ts,
src/types/chess.ts), together with proofs settling the specification claims.

Rows are 0..9 top (black) to bottom (red); columns are 0..8.  A board maps a
position to the optional piece standing there; all engine loops only ever
touch the 90 in-bounds cells, enumerated row-major by `allCells` exactly as
the TypeScript `for` loops do.
-/

namespace Xiangqi

/-- Piece kinds, from `src/types/chess.ts` (`PieceType`). -/
inductive PieceType where
  | king
  | advisor
  | elephant
  | horse
  | chariot
  | cannon
  | soldier
deriving DecidableEq, Repr

/-- Side colours, from `src/types/chess.ts` (`PieceColor`). -/
inductive PieceColor where
  | red
  | black
deriving DecidableEq, Repr

/-- A piece, from `src/types/chess.ts` (`ChessPiece`): kind, colour and the
opaque identity string used only for UI correlation. -/
structure ChessPiece where
  type : PieceType
  color : PieceColor
  id : String
deriving DecidableEq, Repr

/-- A cell, from `src/types/chess.ts` (`Position`).  Coordinates are integers
so that move deltas can be negative, as in the JavaScript arithmetic. -/
structure Position where
  row : Int
  col : Int
deriving DecidableEq, Repr

/-- The board: each cell holds an optional piece (the `(ChessPiece|null)[][]`
grid).  Modelled as a total function on positions; the engine only reads
cells produced by its own in-bounds loops. -/
abbrev Board := Position → Option ChessPiece

/-- The 90 in-bounds cells in row-major order — the iteration order of every
`for (row) for (col)` loop in the source. -/
def allCells : List Position :=
  (List.range 10).flatMap (fun (r : Nat) =>
    (List.range 9).map (fun (c : Nat) => { row := (r : Int), col := (c : Int) }))

/-- Embedding of `isValidPosition` from `boardUtils.ts`: row in [0,9], col in [0,8]. -/
def isValidPosition (p : Position) : Bool :=
  decide (0 ≤ p.row ∧ p.row ≤ 9 ∧ 0 ≤ p.col ∧ p.col ≤ 8)

/-- Embedding of `isInPalace` from `boardUtils.ts`: red palace rows 7–9 cols 3–5, black
palace rows 0–2 cols 3–5. -/
def isInPalace (p : Position) (color : PieceColor) : Bool :=
  match color with
  | .red => decide (7 ≤ p.row ∧ p.row ≤ 9 ∧ 3 ≤ p.col ∧ p.col ≤ 5)
  | .black => decide (0 ≤ p.row ∧ p.row ≤ 2 ∧ 3 ≤ p.col ∧ p.col ≤ 5)

/-- Embedding of `isInOwnTerritory` from `boardUtils.ts`: red rows ≥ 5, black rows ≤ 4. -/
def isInOwnTerritory (p : Position) (color : PieceColor) : Bool :=
  match color with
  | .red => decide (5 ≤ p.row)
  | .black => decide (p.row ≤ 4)

/-- Sign of an integer, matching the ternary step computation in
`getLinePath` (`diff === 0 ? 0 : diff > 0 ? 1 : -1`). -/
def stepSign (x : Int) : Int :=
  if x = 0 then 0 else if 0 < x then 1 else -1

/-- Cells visited by the `while` loop of `getLinePath`: starting cell plus
`fuel - 1` further steps of `step`. -/
def walkPath (start step : Position) : Nat → List Position
  | 0 => []
  | n + 1 => start :: walkPath ⟨start.row + step.row, start.col + step.col⟩ step n

/-- Embedding of `getLinePath` from `boardUtils.ts`: the intervening cells (exclusive) of a
horizontal or vertical segment, empty when the endpoints are not aligned.
The `while` loop takes `|rowDiff| + |colDiff| - 1` steps on aligned input. -/
def getLinePath (f t : Position) : List Position :=
  let rowDiff := t.row - f.row
  let colDiff := t.col - f.col
  if rowDiff ≠ 0 ∧ colDiff ≠ 0 then []
  else
    walkPath ⟨f.row + stepSign rowDiff, f.col + stepSign colDiff⟩
      ⟨stepSign rowDiff, stepSign colDiff⟩ (rowDiff.natAbs + colDiff.natAbs - 1)

/-- Embedding of `isPathBlocked` from `boardUtils.ts`: some cell of the path is occupied. -/
def isPathBlocked (board : Board) (path : List Position) : Bool :=
  path.any (fun p => (board p).isSome)

/-- Embedding of `isValidKingMove` from `moveValidation.ts` lines 76–104: the destination
must lie in the mover's own palace; then a one-cell orthogonal step, or the
same-column flying-generals branch onto the opposing king with a clear path. -/
def isValidKingMove (board : Board) (piece : ChessPiece) (f t : Position) : Bool :=
  if ¬ (isInPalace t piece.color = true) then false
  else
    let rowDiff := (t.row - f.row).natAbs
    let colDiff := (t.col - f.col).natAbs
    if (rowDiff = 1 ∧ colDiff = 0) ∨ (rowDiff = 0 ∧ colDiff = 1) then true
    else if f.col = t.col ∧ f.row ≠ t.row then
      match board t with
      | some tp =>
          if tp.type = .king ∧ tp.color ≠ piece.color then
            ¬ (isPathBlocked board (getLinePath f t) = true)
          else false
      | none => false
    else false

/-- Embedding of `isValidAdvisorMove` from `moveValidation.ts`: one diagonal step inside
the own palace. -/
def isValidAdvisorMove (piece : ChessPiece) (f t : Position) : Bool :=
  if ¬ (isInPalace t piece.color = true) then false
  else decide ((t.row - f.row).natAbs = 1 ∧ (t.col - f.col).natAbs = 1)

/-- Embedding of `isValidElephantMove` from `moveValidation.ts`: a 2×2 diagonal jump inside
own territory with the midpoint "eye" unoccupied. -/
def isValidElephantMove (board : Board) (piece : ChessPiece) (f t : Position) : Bool :=
  if ¬ (isInOwnTerritory t piece.color = true) then false
  else
    let rowDiff := t.row - f.row
    let colDiff := t.col - f.col
    if ¬ (rowDiff.natAbs = 2 ∧ colDiff.natAbs = 2) then false
    else (board ⟨f.row + rowDiff / 2, f.col + colDiff / 2⟩).isNone

/-- Embedding of `isValidHorseMove` from `moveValidation.ts` lines 153–179: an L-shaped
offset whose adjacent "leg" cell along the longer axis is unoccupied. -/
def isValidHorseMove (board : Board) (f t : Position) : Bool :=
  let rowDiff := t.row - f.row
  let colDiff := t.col - f.col
  if ¬ ((rowDiff.natAbs = 2 ∧ colDiff.natAbs = 1) ∨
        (rowDiff.natAbs = 1 ∧ colDiff.natAbs = 2)) then false
  else
    let legPos : Position :=
      if rowDiff.natAbs = 2 then ⟨f.row + rowDiff / 2, f.col⟩
      else ⟨f.row, f.col + colDiff / 2⟩
    (board legPos).isNone

/-- Embedding of `isValidChariotMove` from `moveValidation.ts`: straight line with an
unobstructed path. -/
def isValidChariotMove (board : Board) (f t : Position) : Bool :=
  if f.row ≠ t.row ∧ f.col ≠ t.col then false
  else ¬ (isPathBlocked board (getLinePath f t) = true)

/-- Embedding of `isValidCannonMove` from `moveValidation.ts`: straight line; clear path
when the destination is empty, exactly one intervening screen when it is a
capture. -/
def isValidCannonMove (board : Board) (f t : Position) : Bool :=
  if f.row ≠ t.row ∧ f.col ≠ t.col then false
  else
    let blockedCount := ((getLinePath f t).filter (fun p => (board p).isSome)).length
    match board t with
    | some _ => decide (blockedCount = 1)
    | none => decide (blockedCount = 0)

/-- Embedding of `isValidSoldierMove` from `moveValidation.ts` lines 226–269: one-cell
move; forward only before crossing the river, forward or sideways after. -/
def isValidSoldierMove (piece : ChessPiece) (f t : Position) : Bool :=
  let rowDiff := t.row - f.row
  let colDiff := t.col - f.col
  if rowDiff.natAbs + colDiff.natAbs ≠ 1 then false
  else
    match piece.color with
    | .red =>
        if 4 < f.row then decide (rowDiff = -1 ∧ colDiff = 0)
        else if colDiff = 0 then decide (rowDiff = -1)
        else decide (rowDiff = 0 ∧ colDiff.natAbs = 1)
    | .black =>
        if f.row < 5 then decide (rowDiff = 1 ∧ colDiff = 0)
        else if colDiff = 0 then decide (rowDiff = 1)
        else decide (rowDiff = 0 ∧ colDiff.natAbs = 1)

/-- Embedding of `isValidBasicMoveOnly` from `moveValidation.ts` lines 298–331: in-bounds
destination, origin ≠ destination, destination not a friendly piece, then the
per-piece geometric rule.  (Lines 20–56 of `isValidMove` repeat exactly this
test verbatim.) -/
def isValidBasicMoveOnly (board : Board) (piece : ChessPiece) (f t : Position) : Bool :=
  if ¬ (isValidPosition t = true) then false
  else if f.row = t.row ∧ f.col = t.col then false
  else if (board t).elim false (fun tp => decide (tp.color = piece.color)) then false
  else
    match piece.type with
    | .king => isValidKingMove board piece f t
    | .advisor => isValidAdvisorMove piece f t
    | .elephant => isValidElephantMove board piece f t
    | .horse => isValidHorseMove board f t
    | .chariot => isValidChariotMove board f t
    | .cannon => isValidCannonMove board f t
    | .soldier => isValidSoldierMove piece f t

/-- The board produced by `isValidMove`'s simulation (and by `isCheckmate`'s):
`newBoard[to] = piece; newBoard[from] = null`. -/
def applyMove (board : Board) (piece : ChessPiece) (f t : Position) : Board :=
  fun p => if p = f then none else if p = t then some piece else board p

/-- Embedding of `findKing`: the row-major scan of `isInCheck` locating the first king of
the given colour (the nested loops break at the first hit). -/
def findKing (board : Board) (color : PieceColor) : Option Position :=
  allCells.find? (fun p =>
    (board p).elim false (fun pc => pc.type = .king && pc.color = color))

/-- Embedding of `isInCheck` from `moveValidation.ts` lines 336–368: false when no king of
the colour exists; otherwise true iff some enemy piece has a basic-legal move
onto the king's cell. -/
def isInCheck (board : Board) (kingColor : PieceColor) : Bool :=
  match findKing board kingColor with
  | none => false
  | some kingPos =>
      allCells.any (fun p =>
        (board p).elim false (fun pc =>
          pc.color ≠ kingColor && isValidBasicMoveOnly board pc p kingPos))

/-- Embedding of `isValidMove` from `moveValidation.ts` lines 13–71: the basic test of
lines 20–56 (identical to `isValidBasicMoveOnly`), then the self-check
filter — simulate the move and reject it if the mover is then in check. -/
def isValidMove (board : Board) (piece : ChessPiece) (f t : Position) : Bool :=
  isValidBasicMoveOnly board piece f t &&
    ¬ (isInCheck (applyMove board piece f t) piece.color = true)

/-- Embedding of `getValidMoves` from `moveValidation.ts` lines 274–292: row-major scan of
all 90 cells, keeping the fully legal destinations. -/
def getValidMoves (board : Board) (piece : ChessPiece) (f : Position) : List Position :=
  allCells.filter (fun t => isValidMove board piece f t)

/-- Embedding of `isCheckmate` from `moveValidation.ts` lines 373–403: false when not in
check; otherwise true iff no own piece has a legal move whose simulation
leaves the king out of check. -/
def isCheckmate (board : Board) (kingColor : PieceColor) : Bool :=
  if ¬ (isInCheck board kingColor = true) then false
  else
    ¬ ((allCells.any (fun f =>
        (board f).elim false (fun pc =>
          pc.color = kingColor &&
            (getValidMoves board pc f).any (fun m =>
              ¬ (isInCheck (applyMove board pc f m) kingColor = true))))) = true)

/-- A move record, from `src/types/chess.ts` (`Move`).  The wall-clock
`Date.now()` timestamp is modelled as the constant 0. -/
structure Move where
  «from» : Position
  «to» : Position
  piece : ChessPiece
  capturedPiece : Option ChessPiece
  timestamp : Int
deriving DecidableEq, Repr

/-- Placeholder move used only as the (never-reached) default of list
indexing, mirroring the JavaScript accesses that assume a non-empty list. -/
def defaultMove : Move :=
  ⟨⟨0, 0⟩, ⟨0, 0⟩, ⟨.king, .red, ""⟩, none, 0⟩

/-- Difficulty configuration, from `src/types/chess.ts` (`AIDifficulty`):
search depth, thinking-time budget and randomness probability. -/
structure AIDifficulty where
  depth : Nat
  thinkingTime : Nat
  randomness : Rat
deriving DecidableEq, Repr

/-- The stream of `Math.random()` draws consumed by one `getBestMove` call:
`u` is the uniform draw compared against `randomness`; the three indices
model `Math.floor(Math.random() * length)` draws, reduced modulo the list
length at the use site (so each can denote any index of the list). -/
structure Rng where
  u : Rat
  capIdx : Nat
  moveIdx : Nat
  subIdx : Nat

/-- The opposing colour (`color === 'red' ? 'black' : 'red'`). -/
def oppColor : PieceColor → PieceColor
  | .red => .black
  | .black => .red

/-- Stand-in for the JavaScript `Infinity` sentinel of the search: strictly
larger than any reachable score (scores are bounded by total material plus
the fixed check bonuses, far below 10^9). -/
def INF : Int := 1000000000

/-- Embedding of `pieceValues` table from `AIEngine.evaluatePosition`. -/
def pieceValue : PieceType → Int
  | .king => 10000
  | .advisor => 200
  | .elephant => 200
  | .horse => 400
  | .chariot => 900
  | .cannon => 450
  | .soldier => 100

/-- Embedding of `positionWeights.king` table from `AIEngine.evaluatePosition`. -/
def kingWeights : List (List Int) :=
  [[0, 0, 0, 8, 9, 8, 0, 0, 0],
   [0, 0, 0, 9, 10, 9, 0, 0, 0],
   [0, 0, 0, 8, 9, 8, 0, 0, 0]]

/-- Embedding of `positionWeights.soldier` table from `AIEngine.evaluatePosition`. -/
def soldierWeights : List (List Int) :=
  [[9, 9, 9, 11, 13, 11, 9, 9, 9],
   [19, 24, 34, 42, 44, 42, 34, 24, 19],
   [19, 24, 32, 37, 37, 37, 32, 24, 19],
   [19, 23, 27, 29, 30, 29, 27, 23, 19],
   [14, 18, 20, 27, 29, 27, 20, 18, 14],
   [7, 0, 13, 0, 16, 0, 13, 0, 7],
   [7, 0, 7, 0, 15, 0, 7, 0, 7]]

/-- Material value plus positional bonus of one piece standing at (row, col),
as accumulated by the cell loop of `AIEngine.evaluatePosition`.  Independent
of the evaluation perspective. -/
def pieceScore (piece : ChessPiece) (row col : Int) : Int :=
  pieceValue piece.type +
    match piece.type with
    | .king =>
        let palaceRow := if piece.color = .red then row - 7 else row
        if 0 ≤ palaceRow ∧ palaceRow < 3 then
          ((kingWeights.getD palaceRow.toNat []).getD col.toNat 0)
        else 0
    | .soldier =>
        let soldierRow := if piece.color = .red then 9 - row else row
        if 0 ≤ soldierRow ∧ soldierRow < 7 then
          ((soldierWeights.getD soldierRow.toNat []).getD col.toNat 0)
        else 0
    | _ => 0

/-- Signed contribution of one cell to the evaluation: own pieces add their
score, enemy pieces subtract it. -/
def cellScore (board : Board) (color : PieceColor) (p : Position) : Int :=
  match board p with
  | none => 0
  | some pc => if pc.color = color then pieceScore pc p.row p.col else -(pieceScore pc p.row p.col)

/-- Embedding of `AIEngine.evaluatePosition` from `aiEngine.ts` lines 172–244: signed
material-plus-position sum over all cells, then a −500 penalty if the
perspective side is in check and a +500 bonus if the enemy is. -/
def evaluatePosition (board : Board) (color : PieceColor) : Int :=
  (allCells.map (cellScore board color)).sum +
    (if isInCheck board color then -500 else 0) +
    (if isInCheck board (oppColor color) then 500 else 0)

/-- Embedding of `AIEngine.getAllPossibleMoves` from `aiEngine.ts` lines 249–272: every
legal destination of every own piece, packaged as a `Move` record. -/
def getAllPossibleMoves (board : Board) (color : PieceColor) : List Move :=
  allCells.flatMap (fun f =>
    match board f with
    | some piece =>
        if piece.color = color then
          (getValidMoves board piece f).map (fun t =>
            { «from» := f, «to» := t, piece := piece, capturedPiece := board t, timestamp := 0 })
        else []
    | none => [])

/-- Embedding of `AIEngine.simulateMove`: copy the board, put the origin's occupant on the
destination and empty the origin. -/
def simulateMove (board : Board) (m : Move) : Board :=
  fun p => if p = m.«from» then none else if p = m.«to» then board m.«from» else board p

/-- Embedding of `AIEngine.getEasyMove` from `aiEngine.ts` lines 60–72: a uniform choice
among the capture moves when any exist, otherwise among all moves. -/
def getEasyMove (rng : Rng) (board : Board) (moves : List Move) : Move :=
  let captureMoves := moves.filter (fun m => (board m.«to»).isSome)
  if 0 < captureMoves.length then
    captureMoves.getD (rng.capIdx % captureMoves.length) defaultMove
  else
    moves.getD (rng.moveIdx % moves.length) defaultMove

/-- The shared selection loop of `getMediumMove` and `getHardMove`: start
from `moves[0]` with score −Infinity and keep the first move whose score
strictly exceeds the best so far. -/
def pickBest (score : Move → Int) (moves : List Move) : Move :=
  (moves.foldl
    (fun acc m => let s := score m; if acc.2 < s then (m, s) else acc)
    (moves.headD defaultMove, -INF)).1

/-- Embedding of `AIEngine.minimax` from `aiEngine.ts` lines 113–167: alpha-beta minimax
to the given remaining depth.  The `for`-loops with `break` on a cut-off are
modelled as folds that carry a pruned flag and ignore the remaining moves
once it is set. -/
def minimax (selfColor : PieceColor) : Nat → Board → Bool → Int → Int → Int
  | 0, board, _, _, _ => evaluatePosition board selfColor
  | d + 1, board, isMaximizing, alpha, beta =>
    let currentColor := if isMaximizing then selfColor else oppColor selfColor
    if isCheckmate board currentColor then (if isMaximizing then -10000 else 10000)
    else
      let moves := getAllPossibleMoves board currentColor
      if moves.isEmpty then 0
      else if isMaximizing then
        (moves.foldl (fun st m =>
          if st.2.2 then st
          else
            let e := minimax selfColor d (simulateMove board m) false st.2.1 beta
            (max st.1 e, max st.2.1 e, decide (beta ≤ max st.2.1 e)))
          ((-INF : Int), alpha, false)).1
      else
        (moves.foldl (fun st m =>
          if st.2.2 then st
          else
            let e := minimax selfColor d (simulateMove board m) true alpha st.2.1
            (min st.1 e, min st.2.1 e, decide (min st.2.1 e ≤ alpha)))
          ((INF : Int), beta, false)).1

/-- Embedding of `AIEngine.getMediumMove` from `aiEngine.ts` lines 77–92: greedy
one-ply choice by `evaluatePosition` of the simulated board. -/
def getMediumMove (selfColor : PieceColor) (board : Board) (moves : List Move) : Move :=
  pickBest (fun m => evaluatePosition (simulateMove board m) selfColor) moves

/-- Embedding of `AIEngine.getHardMove` from `aiEngine.ts` lines 97–112: choice by the
minimax value at remaining depth `difficulty.depth - 1`. -/
def getHardMove (diff : AIDifficulty) (selfColor : PieceColor) (board : Board)
    (moves : List Move) : Move :=
  pickBest (fun m => minimax selfColor (diff.depth - 1) (simulateMove board m) false (-INF) INF) moves

/-- Embedding of `AIEngine.getBestMove` from `aiEngine.ts` lines 20–55: none when the side
has no legal move; otherwise the strategy picked by `difficulty.depth`
(1 → easy, 2 → medium, otherwise hard), with the post-search randomness
substitution by a uniformly random legal move.  The `thinkingTime` sleep has
no effect on the returned value and is not modelled. -/
def getBestMove (diff : AIDifficulty) (selfColor : PieceColor) (rng : Rng)
    (board : Board) : Option Move :=
  let allMoves := getAllPossibleMoves board selfColor
  if allMoves.isEmpty then none
  else
    let best :=
      match diff.depth with
      | 1 => getEasyMove rng board allMoves
      | 2 => getMediumMove selfColor board allMoves
      | _ => getHardMove diff selfColor board allMoves
    some (if 0 < diff.randomness ∧ rng.u < diff.randomness then
            allMoves.getD (rng.subIdx % allMoves.length) defaultMove
          else best)

/-! ## Concrete boards used as inputs for evaluations and witnesses -/

/-- A sparse board from a finite association list of occupied cells. -/
def boardOfList (l : List (Position × ChessPiece)) : Board :=
  fun p => (l.find? (fun e => decide (e.1 = p))).map (fun e => e.2)

/-- The two kings facing each other on column 4 with the entire column
in between unoccupied — the canonical flying-generals configuration. -/
def facingKingsBoard : Board := boardOfList
  [(⟨9, 4⟩, ⟨.king, .red, "rk"⟩), (⟨0, 4⟩, ⟨.king, .black, "bk"⟩)]

/-- A black horse at (0,1) with a black soldier at (0,2) — the blocker cell
named by the specification's horse-leg test. -/
def horseRowBlockerBoard : Board := boardOfList
  [(⟨0, 1⟩, ⟨.horse, .black, "h"⟩), (⟨0, 2⟩, ⟨.soldier, .black, "s"⟩)]

/-- A black horse at (0,1) with a black soldier at (1,1) — the cell that the
code actually treats as the leg of the (0,1) → (2,2) jump. -/
def horseLegBlockerBoard : Board := boardOfList
  [(⟨0, 1⟩, ⟨.horse, .black, "h"⟩), (⟨1, 1⟩, ⟨.soldier, .black, "s"⟩)]

/-- A board with a single red soldier at (6,0). -/
def loneSoldierBoard : Board := boardOfList
  [(⟨6, 0⟩, ⟨.soldier, .red, "s"⟩)]

def redChariotA : ChessPiece := ⟨.chariot, .red, "r1"⟩

def redChariotB : ChessPiece := ⟨.chariot, .red, "r2"⟩

/-- A mate-in-one board for red: the chariot on (9,0) mates by moving to
(0,0) (the chariot on (1,8) seals row 1), while the only capture available
to red — chariot (1,8) takes the black soldier on (9,8) — does not mate. -/
def mateInOneBoard : Board := boardOfList
  [(⟨1, 8⟩, redChariotA), (⟨9, 0⟩, redChariotB), (⟨9, 4⟩, ⟨.king, .red, "rk"⟩),
   (⟨0, 4⟩, ⟨.king, .black, "bk"⟩), (⟨9, 8⟩, ⟨.soldier, .black, "bs"⟩)]

/-- Red's single capture move on `mateInOneBoard`. -/
def mateBoardCapture : Move :=
  ⟨⟨1, 8⟩, ⟨9, 8⟩, redChariotA, some ⟨.soldier, .black, "bs"⟩, 0⟩

/-- The depth-1 difficulty with randomness 0 of the mate-in-one scenario. -/
def depthOneDifficulty : AIDifficulty := ⟨1, 0, 0⟩

/-- A fixed stream of random draws (all zero). -/
def rngZero : Rng := ⟨0, 0, 0, 0⟩

/-- The single legal move of `loneSoldierBoard`. -/
def loneSoldierMove : Move :=
  ⟨⟨6, 0⟩, ⟨5, 0⟩, ⟨.soldier, .red, "s"⟩, none, 0⟩

/-! ## Shared lemmas about the embedded engine -/

theorem mem_allCells {p : Position} : p ∈ allCells ↔ isValidPosition p = true := by
  constructor
  · intro h
    obtain ⟨a, ha, hp⟩ := List.mem_flatMap.mp h
    obtain ⟨b, hb, rfl⟩ := List.mem_map.mp hp
    have h1 := List.mem_range.mp ha
    have h2 := List.mem_range.mp hb
    simp only [isValidPosition, decide_eq_true_eq]
    refine ⟨by omega, by omega, by omega, by omega⟩
  · intro h
    cases p with
    | mk r c =>
      simp only [isValidPosition, decide_eq_true_eq] at h
      refine List.mem_flatMap.mpr ⟨r.toNat, List.mem_range.mpr (by omega),
        List.mem_map.mpr ⟨c.toNat, List.mem_range.mpr (by omega), ?_⟩⟩
      simp only [Position.mk.injEq]
      exact ⟨by omega, by omega⟩

theorem isValidMove_iff {board : Board} {piece : ChessPiece} {f t : Position} :
    isValidMove board piece f t = true ↔
      isValidBasicMoveOnly board piece f t = true ∧
        isInCheck (applyMove board piece f t) piece.color = false := by
  simp [isValidMove, Bool.and_eq_true, decide_eq_true_eq]

theorem mem_getValidMoves {board : Board} {piece : ChessPiece} {f t : Position} :
    t ∈ getValidMoves board piece f ↔
      t ∈ allCells ∧ isValidMove board piece f t = true := by
  simp [getValidMoves, List.mem_filter]

theorem no_check_of_mem_getValidMoves {board : Board} {piece : ChessPiece} {f t : Position}
    (h : t ∈ getValidMoves board piece f) :
    isInCheck (applyMove board piece f t) piece.color = false :=
  (isValidMove_iff.mp (mem_getValidMoves.mp h).2).2

theorem getD_mod_mem {α : Type} {l : List α} (hne : l ≠ []) (n : Nat) (d : α) :
    l.getD (n % l.length) d ∈ l := by
  have hlt : n % l.length < l.length := Nat.mod_lt _ (List.length_pos.mpr hne)
  rw [List.getD_eq_getElem l d hlt]
  exact List.getElem_mem hlt

theorem sum_map_neg_int {α : Type} (l : List α) (g : α → Int) :
    (l.map (fun a => -(g a))).sum = -((l.map g).sum) := by
  induction l with
  | nil => simp
  | cons x xs ih => simp only [List.map_cons, List.sum_cons, ih]; ring

theorem soldier_of_basic {board : Board} {piece : ChessPiece} {f t : Position}
    (hs : piece.type = .soldier) (h : isValidBasicMoveOnly board piece f t = true) :
    isValidSoldierMove piece f t = true := by
  unfold isValidBasicMoveOnly at h
  rw [hs] at h
  split at h
  · simp at h
  · split at h
    · simp at h
    · split at h
      · simp at h
      · exact h

theorem soldier_move_dir {piece : ChessPiece} {f t : Position}
    (h : isValidSoldierMove piece f t = true) :
    (piece.color = .red → t.row ≤ f.row) ∧ (piece.color = .black → f.row ≤ t.row) := by
  obtain ⟨ty, co, idv⟩ := piece
  cases co with
  | red =>
    refine ⟨fun _ => ?_, fun hb => PieceColor.noConfusion hb⟩
    simp only [isValidSoldierMove] at h
    split at h
    · exact Bool.noConfusion h
    · split at h
      · simp only [decide_eq_true_eq] at h; omega
      · split at h
        · simp only [decide_eq_true_eq] at h; omega
        · simp only [decide_eq_true_eq] at h; omega
  | black =>
    refine ⟨fun hb => PieceColor.noConfusion hb, fun _ => ?_⟩
    simp only [isValidSoldierMove] at h
    split at h
    · exact Bool.noConfusion h
    · split at h
      · simp only [decide_eq_true_eq] at h; omega
      · split at h
        · simp only [decide_eq_true_eq] at h; omega
        · simp only [decide_eq_true_eq] at h; omega

/-! ## The claims -/

/-- C1: on the canonical flying-generals configuration (both kings on a
clear column 4), the general's jump onto the opposing general is NOT
accepted by the basic legality test: `isValidKingMove` demands that the
destination lie in the mover's own palace before it ever reaches the
flying-generals branch, so the special case documented at
`moveValidation.ts` lines 93–100 is unreachable for it.  This contradicts
the claim (and the code's own comment); the code evaluates to `false` for
both colours. -/
theorem flying_general_capture_rejected :
    isValidKingMove facingKingsBoard ⟨.king, .red, "rk"⟩ ⟨9, 4⟩ ⟨0, 4⟩ = false ∧
    isValidBasicMoveOnly facingKingsBoard ⟨.king, .red, "rk"⟩ ⟨9, 4⟩ ⟨0, 4⟩ = false ∧
    isValidBasicMoveOnly facingKingsBoard ⟨.king, .black, "bk"⟩ ⟨0, 4⟩ ⟨9, 4⟩ = false ∧
    (getLinePath ⟨9, 4⟩ ⟨0, 4⟩).all (fun p => (facingKingsBoard p).isNone) = true := by
  refine ⟨by decide, by decide, by decide, by decide⟩

/-- C2: whenever `isValidMove` accepts a move, the board obtained by placing
the piece on the destination and emptying the origin leaves the mover's own
general out of check — this is exactly the self-check filter that
`isValidMove` applies after the basic test. -/
theorem legal_move_never_leaves_self_check (board : Board) (piece : ChessPiece)
    (f t : Position) (h : isValidMove board piece f t = true) :
    isInCheck (applyMove board piece f t) piece.color = false :=
  (isValidMove_iff.mp h).2

/-- Witness for C2: the lone red soldier's step (6,0) → (5,0) is legal and
its application leaves red out of check. -/
theorem legal_move_never_leaves_self_check_witness :
    isValidMove loneSoldierBoard ⟨.soldier, .red, "s"⟩ ⟨6, 0⟩ ⟨5, 0⟩ = true ∧
    isInCheck (applyMove loneSoldierBoard ⟨.soldier, .red, "s"⟩ ⟨6, 0⟩ ⟨5, 0⟩) PieceColor.red = false :=
  ⟨by decide, legal_move_never_leaves_self_check _ _ _ _ (by decide)⟩

/-- C4: a soldier move accepted by `isValidMove` never moves backward: a red
soldier's destination row never exceeds its origin row, and a black
soldier's destination row is never below its origin row, on either side of
the river. -/
theorem soldier_never_moves_backward (board : Board) (piece : ChessPiece)
    (f t : Position) (hs : piece.type = PieceType.soldier)
    (h : isValidMove board piece f t = true) :
    (piece.color = PieceColor.red → t.row ≤ f.row) ∧
    (piece.color = PieceColor.black → f.row ≤ t.row) :=
  soldier_move_dir (soldier_of_basic hs (isValidMove_iff.mp h).1)

/-- Witness for C4: the red soldier move (6,0) → (5,0) is legal and its
destination row does not exceed its origin row. -/
theorem soldier_never_moves_backward_witness :
    (ChessPiece.mk .soldier .red "s").type = PieceType.soldier ∧
    isValidMove loneSoldierBoard ⟨.soldier, .red, "s"⟩ ⟨6, 0⟩ ⟨5, 0⟩ = true ∧
    (((ChessPiece.mk .soldier .red "s").color = PieceColor.red → (5 : Int) ≤ 6) ∧
     ((ChessPiece.mk .soldier .red "s").color = PieceColor.black → (6 : Int) ≤ 5)) :=
  ⟨rfl, by decide,
    soldier_never_moves_backward loneSoldierBoard ⟨.soldier, .red, "s"⟩ ⟨6, 0⟩ ⟨5, 0⟩ rfl (by decide)⟩

theorem cellScore_red_neg_black (board : Board) (p : Position) :
    cellScore board .red p = -(cellScore board .black p) := by
  unfold cellScore
  cases board p with
  | none => simp
  | some pc => cases hc : pc.color <;> simp [hc]

/-- C5: the position evaluator is antisymmetric in its perspective colour:
`evaluatePosition board red = -(evaluatePosition board black)`.  Each cell's
contribution is the perspective-independent piece score with the sign of the
perspective, and the two ±500 check adjustments swap rôles. -/
theorem evaluate_antisymmetric (board : Board) :
    evaluatePosition board PieceColor.red = -(evaluatePosition board PieceColor.black) := by
  unfold evaluatePosition
  have h1 : allCells.map (cellScore board .red) =
      allCells.map (fun p => -(cellScore board .black p)) :=
    List.map_congr_left (fun p _ => cellScore_red_neg_black board p)
  rw [h1, sum_map_neg_int]
  have hop1 : oppColor .red = .black := rfl
  have hop2 : oppColor .black = .red := rfl
  rw [hop1, hop2]
  cases h2 : isInCheck board .red <;> cases h3 : isInCheck board .black <;> simp <;> ring

/-- C10: on a board holding no general of colour `c`, the king scan of
`isInCheck` finds nothing and the function returns false, and therefore
`isCheckmate` returns false as well — the engine answers totally on such
boards. -/
theorem no_general_means_no_check (board : Board) (c : PieceColor)
    (h : ∀ f ∈ allCells, ∀ pc, board f = some pc →
      ¬(pc.type = PieceType.king ∧ pc.color = c)) :
    isInCheck board c = false ∧ isCheckmate board c = false := by
  have hk : findKing board c = none := by
    rw [findKing, List.find?_eq_none]
    intro p hp
    cases hbp : board p with
    | none => simp
    | some pc =>
      have := h p hp pc hbp
      simp only [Option.elim_some, Bool.not_eq_true, Bool.and_eq_false_iff]
      by_cases h1 : pc.type = PieceType.king
      · right
        have h2 : pc.color ≠ c := fun h2 => this ⟨h1, h2⟩
        simp [h2]
      · left
        simp [h1]
  have h1 : isInCheck board c = false := by rw [isInCheck, hk]
  refine ⟨h1, ?_⟩
  rw [isCheckmate]
  simp [h1]

/-- Witness for C10: the empty board has no red general, is not in check and
is not checkmated. -/
theorem no_general_means_no_check_witness :
    (∀ f ∈ allCells, ∀ pc, (boardOfList []) f = some pc →
      ¬(pc.type = PieceType.king ∧ pc.color = PieceColor.red)) ∧
    (isInCheck (boardOfList []) PieceColor.red = false ∧
     isCheckmate (boardOfList []) PieceColor.red = false) :=
  ⟨by decide, no_general_means_no_check (boardOfList []) PieceColor.red (by decide)⟩

/-- C6 counterexample: with a horse at (0,1) and a piece at (0,2) — the
blocker position named by the claim — the move to (2,2) is in fact ACCEPTED:
the code's leg cell for a (+2,+1) jump from (0,1) is (1,1), not (0,2). -/
theorem horse_row_blocker_counterexample :
    horseRowBlockerBoard ⟨0, 1⟩ = some ⟨.horse, .black, "h"⟩ ∧
    horseRowBlockerBoard ⟨0, 2⟩ = some ⟨.soldier, .black, "s"⟩ ∧
    isValidMove horseRowBlockerBoard ⟨.horse, .black, "h"⟩ ⟨0, 1⟩ ⟨2, 2⟩ = true ∧
    Position.mk 2 2 ∈ getValidMoves horseRowBlockerBoard ⟨.horse, .black, "h"⟩ ⟨0, 1⟩ := by
  refine ⟨by decide, by decide, by decide, by decide⟩

/-- C6 amended: the cell the code checks as the horse's leg for the jump
(0,1) → (2,2) is (1,1); whenever (1,1) is occupied, the move is rejected by
`isValidMove` and (2,2) is not among the horse's legal destinations. -/
theorem horse_blocked_leg_cannot_reach (board : Board) (h q : ChessPiece)
    (h01 : board ⟨0, 1⟩ = some h) (hh : h.type = PieceType.horse)
    (h11 : board ⟨1, 1⟩ = some q) :
    isValidMove board h ⟨0, 1⟩ ⟨2, 2⟩ = false ∧
    Position.mk 2 2 ∉ getValidMoves board h ⟨0, 1⟩ := by
  have hbm : isValidHorseMove board ⟨0, 1⟩ ⟨2, 2⟩ = false := by
    show (board ⟨1, 1⟩).isNone = false
    rw [h11]
    rfl
  have hbasic : isValidBasicMoveOnly board h ⟨0, 1⟩ ⟨2, 2⟩ = false := by
    unfold isValidBasicMoveOnly
    rw [hh]
    split
    · rfl
    · split
      · rfl
      · split
        · rfl
        · exact hbm
  have hmv : isValidMove board h ⟨0, 1⟩ ⟨2, 2⟩ = false := by
    unfold isValidMove
    rw [hbasic]
    rfl
  refine ⟨hmv, fun hmem => ?_⟩
  have := (mem_getValidMoves.mp hmem).2
  rw [hmv] at this
  exact Bool.noConfusion this

/-- Witness for the amended C6: on the board with the horse at (0,1) and a
soldier on the actual leg cell (1,1), the jump to (2,2) is rejected. -/
theorem horse_blocked_leg_cannot_reach_witness :
    horseLegBlockerBoard ⟨0, 1⟩ = some ⟨.horse, .black, "h"⟩ ∧
    (ChessPiece.mk .horse .black "h").type = PieceType.horse ∧
    horseLegBlockerBoard ⟨1, 1⟩ = some ⟨.soldier, .black, "s"⟩ ∧
    (isValidMove horseLegBlockerBoard ⟨.horse, .black, "h"⟩ ⟨0, 1⟩ ⟨2, 2⟩ = false ∧
     Position.mk 2 2 ∉ getValidMoves horseLegBlockerBoard ⟨.horse, .black, "h"⟩ ⟨0, 1⟩) :=
  ⟨by decide, rfl, by decide,
    horse_blocked_leg_cannot_reach horseLegBlockerBoard ⟨.horse, .black, "h"⟩
      ⟨.soldier, .black, "s"⟩ (by decide) rfl (by decide)⟩

theorem mem_getAllPossibleMoves {board : Board} {c : PieceColor} {m : Move}
    (h : m ∈ getAllPossibleMoves board c) :
    board m.«from» = some m.piece ∧ m.piece.color = c ∧
      m.«to» ∈ getValidMoves board m.piece m.«from» := by
  obtain ⟨f, hf, hm⟩ := List.mem_flatMap.mp h
  cases hbf : board f with
  | none =>
    simp only [hbf] at hm
    exact absurd hm (List.not_mem_nil m)
  | some piece =>
    simp only [hbf] at hm
    by_cases hc : piece.color = c
    · rw [if_pos hc] at hm
      obtain ⟨t, ht, rfl⟩ := List.mem_map.mp hm
      exact ⟨hbf, hc, ht⟩
    · rw [if_neg hc] at hm
      exact absurd hm (List.not_mem_nil m)

theorem getEasyMove_mem {rng : Rng} {board : Board} {moves : List Move}
    (hne : moves ≠ []) : getEasyMove rng board moves ∈ moves := by
  simp only [getEasyMove]
  split
  · next hcap =>
    exact List.mem_of_mem_filter (getD_mod_mem (List.length_pos.mp hcap) _ _)
  · exact getD_mod_mem hne _ _

theorem foldl_pick_mem (score : Move → Int) (S : List Move) :
    ∀ (l : List Move) (acc : Move × Int), acc.1 ∈ S → (∀ x ∈ l, x ∈ S) →
      (l.foldl (fun acc m => let s := score m; if acc.2 < s then (m, s) else acc) acc).1 ∈ S := by
  intro l
  induction l with
  | nil =>
    intro acc ha _
    simpa using ha
  | cons x xs ih =>
    intro acc ha hl
    simp only [List.foldl_cons]
    apply ih
    · dsimp only
      split
      · exact hl x (List.mem_cons_self _ _)
      · exact ha
    · intro y hy
      exact hl y (List.mem_cons_of_mem _ hy)

theorem pickBest_mem {score : Move → Int} {moves : List Move}
    (hne : moves ≠ []) : pickBest score moves ∈ moves := by
  unfold pickBest
  apply foldl_pick_mem
  · cases moves with
    | nil => exact absurd rfl hne
    | cons m rest => exact List.mem_cons_self _ _
  · intro x hx
    exact hx

theorem getBestMove_mem {diff : AIDifficulty} {c : PieceColor} {rng : Rng}
    {board : Board} {m : Move} (h : getBestMove diff c rng board = some m) :
    m ∈ getAllPossibleMoves board c := by
  simp only [getBestMove] at h
  split at h
  · exact Option.noConfusion h
  · next hne =>
    have hne' : getAllPossibleMoves board c ≠ [] := by
      intro hnil
      rw [hnil] at hne
      exact hne rfl
    rw [Option.some.injEq] at h
    subst h
    split
    · exact getD_mod_mem hne' _ _
    · split
      · exact getEasyMove_mem hne'
      · exact pickBest_mem hne'
      · exact pickBest_mem hne'

/-- C9: any move returned by `getBestMove` — for every difficulty, including
the randomness-substitution path — is fully legal: its piece stands at its
origin on the board, it belongs to the searching colour, and its destination
is among the self-check-filtered legal moves of that piece. -/
theorem best_move_is_legal (diff : AIDifficulty) (c : PieceColor) (rng : Rng)
    (board : Board) (m : Move) (h : getBestMove diff c rng board = some m) :
    board m.«from» = some m.piece ∧ m.piece.color = c ∧
      m.«to» ∈ getValidMoves board m.piece m.«from» :=
  mem_getAllPossibleMoves (getBestMove_mem h)

/-- Witness for C9: on the lone-soldier board the engine returns the soldier
advance (6,0) → (5,0), which is legal in the full sense. -/
theorem best_move_is_legal_witness :
    getBestMove depthOneDifficulty PieceColor.red rngZero loneSoldierBoard =
      some loneSoldierMove ∧
    (loneSoldierBoard loneSoldierMove.«from» = some loneSoldierMove.piece ∧
      loneSoldierMove.piece.color = PieceColor.red ∧
      loneSoldierMove.«to» ∈
        getValidMoves loneSoldierBoard loneSoldierMove.piece loneSoldierMove.«from») :=
  ⟨by decide,
    best_move_is_legal depthOneDifficulty PieceColor.red rngZero loneSoldierBoard
      loneSoldierMove (by decide)⟩

/-- C8: `getBestMove` returns `none` exactly when the colour has no legal
move at all — for every piece of the colour at any cell, `getValidMoves` is
empty; whenever some legal move exists it returns `some` move. -/
theorem best_move_none_iff_no_legal_moves (diff : AIDifficulty) (c : PieceColor)
    (rng : Rng) (board : Board) :
    getBestMove diff c rng board = none ↔
      ∀ f ∈ allCells, ∀ pc, board f = some pc → pc.color = c →
        getValidMoves board pc f = [] := by
  have h1 : getBestMove diff c rng board = none ↔ getAllPossibleMoves board c = [] := by
    simp only [getBestMove]
    split
    · next he =>
      simp only [List.isEmpty_iff] at he
      simp [he]
    · next he =>
      simp only [List.isEmpty_iff] at he
      simp [he]
  rw [h1, getAllPossibleMoves, List.flatMap_eq_nil_iff]
  constructor
  · intro H f hf pc hpc hcol
    have hcell := H f hf
    simp only [hpc] at hcell
    rw [if_pos hcol] at hcell
    exact List.map_eq_nil_iff.mp hcell
  · intro H f hf
    cases hbf : board f with
    | none => simp
    | some pc =>
      simp only
      by_cases hc : pc.color = c
      · rw [if_pos hc]
        rw [List.map_eq_nil_iff]
        exact H f hf pc hbf hc
      · rw [if_neg hc]

theorem escape_any_iff {board : Board} {pc : ChessPiece} {f : Position} {c : PieceColor}
    (hc : pc.color = c) :
    ((getValidMoves board pc f).any
        (fun m => ¬ (isInCheck (applyMove board pc f m) c = true)) = true)
      ↔ getValidMoves board pc f ≠ [] := by
  constructor
  · intro h hnil
    rw [hnil] at h
    exact Bool.noConfusion h
  · intro hne
    obtain ⟨m, rest, hm⟩ : ∃ m rest, getValidMoves board pc f = m :: rest := by
      cases hl : getValidMoves board pc f with
      | nil => exact absurd hl hne
      | cons a b => exact ⟨a, b, rfl⟩
    have hmem : m ∈ getValidMoves board pc f := by
      rw [hm]
      exact List.mem_cons_self _ _
    have hq := no_check_of_mem_getValidMoves hmem
    rw [hc] at hq
    refine List.any_eq_true.mpr ⟨m, hmem, ?_⟩
    simp [hq]

/-- C3: `isCheckmate board c` holds exactly when `isInCheck board c` holds
and every piece of colour `c` standing on the board has an empty
`getValidMoves` list.  The re-simulation inside `isCheckmate` never finds an
escaping move beyond what `getValidMoves` already filtered, because every
generated move already passed the self-check filter. -/
theorem checkmate_iff_in_check_and_no_moves (board : Board) (c : PieceColor) :
    isCheckmate board c = true ↔
      (isInCheck board c = true ∧
        ∀ f ∈ allCells, ∀ pc, board f = some pc → pc.color = c →
          getValidMoves board pc f = []) := by
  unfold isCheckmate
  split
  · next hnc =>
    constructor
    · intro hfalse
      exact absurd hfalse (by simp)
    · rintro ⟨hchk, -⟩
      exact absurd hchk hnc
  · next hnc =>
    have hchk : isInCheck board c = true := of_not_not hnc
    rw [decide_eq_true_eq]
    constructor
    · intro H
      refine ⟨hchk, ?_⟩
      intro f hf pc hpc hcol
      have hany := Bool.eq_false_iff.mpr H
      have hg := List.any_eq_false.mp hany f hf
      by_contra hne
      apply hg
      rw [hpc]
      simp only [Option.elim]
      rw [Bool.and_eq_true]
      exact ⟨decide_eq_true hcol, (escape_any_iff hcol).mpr hne⟩
    · rintro ⟨-, H⟩
      intro hX
      obtain ⟨f, hf, hgf⟩ := List.any_eq_true.mp hX
      cases hbf : board f with
      | none =>
        rw [hbf] at hgf
        exact Bool.noConfusion hgf
      | some pc =>
        rw [hbf] at hgf
        simp only [Option.elim] at hgf
        rw [Bool.and_eq_true] at hgf
        obtain ⟨h1, h2⟩ := hgf
        have hcol := of_decide_eq_true h1
        exact (escape_any_iff hcol).mp h2 (H f hf pc hbf hcol)

/-- C7 counterexample: `mateInOneBoard` admits the mate in one
(9,0) → (0,0) for red, yet `getBestMove` with the depth-1 difficulty and
randomness 0 returns the non-mating capture (1,8) → (9,8): the depth-1
strategy is the capture-preferring random `getEasyMove`, not a search. -/
theorem depth_one_misses_mate_counterexample :
    isValidMove mateInOneBoard redChariotB ⟨9, 0⟩ ⟨0, 0⟩ = true ∧
    isCheckmate (applyMove mateInOneBoard redChariotB ⟨9, 0⟩ ⟨0, 0⟩) PieceColor.black = true ∧
    getBestMove depthOneDifficulty PieceColor.red rngZero mateInOneBoard =
      some mateBoardCapture ∧
    isCheckmate (simulateMove mateInOneBoard mateBoardCapture) PieceColor.black = false := by
  refine ⟨by decide, by decide, by decide, by decide⟩

/-- C7 amended: with a depth-1 difficulty and randomness 0, `getBestMove`
returns some legal move, but not necessarily a mating one — it returns a
capture move whenever any capture is available (ignoring mate entirely). -/
theorem depth_one_prefers_captures (board : Board) (diff : AIDifficulty) (rng : Rng)
    (c : PieceColor) (hd : diff.depth = 1) (hr : diff.randomness = 0)
    (hne : getAllPossibleMoves board c ≠ []) :
    ∃ m, getBestMove diff c rng board = some m ∧ m ∈ getAllPossibleMoves board c ∧
      ((∃ m' ∈ getAllPossibleMoves board c, (board m'.«to»).isSome = true) →
        (board m.«to»).isSome = true) := by
  have hempty : (getAllPossibleMoves board c).isEmpty = false := by
    simp [List.isEmpty_iff, hne]
  refine ⟨getEasyMove rng board (getAllPossibleMoves board c), ?_, getEasyMove_mem hne, ?_⟩
  · simp [getBestMove, hd, hr, hempty]
  · rintro ⟨m', hm', hcapm'⟩
    have hcapne : (getAllPossibleMoves board c).filter
        (fun m => (board m.«to»).isSome) ≠ [] := by
      intro h0
      have hmem : m' ∈ (getAllPossibleMoves board c).filter
          (fun m => (board m.«to»).isSome) :=
        List.mem_filter.mpr ⟨hm', hcapm'⟩
      rw [h0] at hmem
      exact List.not_mem_nil _ hmem
    have hlen : 0 < ((getAllPossibleMoves board c).filter
        (fun m => (board m.«to»).isSome)).length :=
      List.length_pos.mpr hcapne
    simp only [getEasyMove]
    rw [if_pos hlen]
    exact (List.mem_filter.mp (getD_mod_mem hcapne _ _)).2

/-- Witness for the amended C7: on `mateInOneBoard` the depth-1 engine
returns a legal move which is a capture (a capture exists there). -/
theorem depth_one_prefers_captures_witness :
    depthOneDifficulty.depth = 1 ∧ depthOneDifficulty.randomness = 0 ∧
    getAllPossibleMoves mateInOneBoard PieceColor.red ≠ [] ∧
    (∃ m, getBestMove depthOneDifficulty PieceColor.red rngZero mateInOneBoard = some m ∧
      m ∈ getAllPossibleMoves mateInOneBoard PieceColor.red ∧
      ((∃ m' ∈ getAllPossibleMoves mateInOneBoard PieceColor.red,
          (mateInOneBoard m'.«to»).isSome = true) →
        (mateInOneBoard m.«to»).isSome = true)) :=
  ⟨rfl, rfl, by decide,
    depth_one_prefers_captures mateInOneBoard depthOneDifficulty rngZero PieceColor.red
      rfl rfl (by decide)⟩

end Xiangqi
